import Mathlib

/-
Verification of the IGL Vulkan staging-transfer engine.

This development embeds the staging-transfer engine (VulkanStagingDevice)
of the IGL repository in Lean 4 and proves the testable properties of its
specification.  The repository contains the class declaration
(VulkanStagingDevice.h: MemoryRegionDesc, getAlignedSize,
getNextFreeOffset, flushOutstandingFences, bufferSubData,
getBufferSubData, and the member fields), while the member-function
bodies live in VulkanStagingDevice.cpp, which is not part of the source
snapshot; those bodies are modelled from the specification (spec.md
section 4), as marked on each definition.
-/

namespace IglStaging

/-- Structure `MemoryRegionDesc` from `VulkanStagingDevice.h` (lines
53-56): a byte range inside the staging buffer, `srcOffset_` and
`alignedSize_` stored as `uint32_t` values.  Offsets and sizes are
represented as `Nat`; the `uint32_t` narrowing on conversion is modelled
separately by `mkMemoryRegionDesc`. -/
structure MemoryRegionDesc where
  srcOffset : Nat
  alignedSize : Nat
deriving Repr, DecidableEq

/-- The `uint32_t` narrowing applied when a `size_t` offset or size is
stored into `MemoryRegionDesc` (C++ unsigned conversion: value mod 2^32). -/
def truncU32 (n : Nat) : Nat := n % 2 ^ 32

/-- Modelled from the spec: building a `MemoryRegionDesc` from `size_t`
request parameters stores both fields as `uint32_t`, so each is reduced
mod 2^32 (the storing assignment lives in the missing
`VulkanStagingDevice.cpp`; the field types come from the header). -/
def mkMemoryRegionDesc (off sz : Nat) : MemoryRegionDesc :=
  ⟨truncU32 off, truncU32 sz⟩

/-- One entry of the completion tracker (`outstandingFences_` in the
header): a completion token together with the staging-buffer region the
in-flight device operation is still consuming.  The spec (§9) keeps the
entries ordered by insertion sequence, oldest first. -/
structure OutstandingTransfer where
  token : Nat
  region : MemoryRegionDesc
deriving Repr, DecidableEq

/-- The mutable state of the staging engine, from the fields of
`VulkanStagingDevice` (header lines 62-70): buffer capacity, buffer
alignment (default 16), the ring cursor `stagingBufferFrontOffset_`, and
the outstanding-transfer tracker, kept oldest-first.  `maxCapacity` is the
implementation-defined maximum capacity of spec §4.3/§7; `nextToken` is
the monotone token counter of the external command-submission
collaborator. -/
structure StagingState where
  capacity : Nat
  alignment : Nat
  maxCapacity : Nat
  frontOffset : Nat
  outstanding : List OutstandingTransfer
  nextToken : Nat
deriving Repr, DecidableEq

/-- Modelled from the spec (§4.1, body in the missing
`VulkanStagingDevice.cpp`): `getAlignedSize` rounds a size up to the
buffer alignment, `alignedSize = ceil(size / alignment) * alignment`. -/
def getAlignedSize (size alignment : Nat) : Nat :=
  (size + alignment - 1) / alignment * alignment

/-- Whether the half-open byte range `[off, off + sz)` intersects the
byte range of region `r`. -/
def rangeOverlaps (off sz : Nat) (r : MemoryRegionDesc) : Bool :=
  decide (off < r.srcOffset + r.alignedSize) && decide (r.srcOffset < off + sz)

/-- Whether two regions intersect. -/
def regionsOverlap (a b : MemoryRegionDesc) : Bool :=
  rangeOverlaps a.srcOffset a.alignedSize b

/-- Modelled from the spec (§4.2, body in the missing
`VulkanStagingDevice.cpp`): the non-blocking flush of
`flushOutstandingFences`.  It walks the outstanding entries oldest first,
polls each token with `done`, reclaims completed entries, and stops at the
first entry whose token is not yet complete.  Returns the remaining
entries and the total bytes reclaimed. -/
def flushOutstandingFences (done : Nat → Bool) :
    List OutstandingTransfer → List OutstandingTransfer × Nat
  | [] => ([], 0)
  | e :: rest =>
    if done e.token then
      let r := flushOutstandingFences done rest
      (r.1, e.region.alignedSize + r.2)
    else (e :: rest, 0)

/-- Modelled from the spec (§4.1 step 3, body in the missing
`VulkanStagingDevice.cpp`): the blocking flush used inside
`getNextFreeOffset`.  While some outstanding entry overlaps the candidate
range `[off, off + sz)`, wait on the oldest outstanding token (a blocking
wait always observes the token complete) and reclaim its entry.  Returns
the remaining entries and the list of tokens that were waited on,
oldest first. -/
def reclaimUntilFree (off sz : Nat) :
    List OutstandingTransfer → List OutstandingTransfer × List Nat
  | [] => ([], [])
  | e :: rest =>
    if (e :: rest).any (fun t => rangeOverlaps off sz t.region) then
      let r := reclaimUntilFree off sz rest
      (r.1, e.token :: r.2)
    else (e :: rest, [])

/-- Rounding up to a multiple of `a`. -/
def alignUp (n a : Nat) : Nat := (n + a - 1) / a * a

/-- Modelled from the spec (§4.3): the growth policy of the capacity
manager, `new capacity = max(capacity * 2, minRequired)` rounded up to the
alignment. -/
def growCapacity (capacity minRequired alignment : Nat) : Nat :=
  alignUp (max (capacity * 2) minRequired) alignment

/-- Error kinds reported to the caller (spec §7). -/
inductive StagingError where
  | capacityExceeded
deriving Repr, DecidableEq

/-- The result of a successful `getNextFreeOffset`: the reserved region,
the updated engine state, and the tokens that the call blocked on (each
observed complete by its wait), oldest first. -/
structure ReserveResult where
  region : MemoryRegionDesc
  state : StagingState
  waited : List Nat
deriving Repr, DecidableEq

/-- Modelled from the spec (§4.3): the grown engine state, with the new
capacity given by the growth policy, `frontOffset` reset to 0 and the
completion tracker cleared. -/
def grownState (s : StagingState) (minRequired : Nat) : StagingState :=
  { s with
    capacity := growCapacity s.capacity minRequired s.alignment
    frontOffset := 0
    outstanding := [] }

/-- Modelled from the spec (§4.3): growing the staging buffer.  The
capacity bound is checked first; on failure the error is reported and the
state is untouched.  On success all outstanding transfers are waited on
(their tokens observed complete), the old buffer is replaced by one of the
new capacity, `frontOffset` resets to 0 and the tracker is cleared.
Returns the grown state and the tokens waited on. -/
def growState (s : StagingState) (minRequired : Nat) :
    Except StagingError (StagingState × List Nat) :=
  if s.maxCapacity < growCapacity s.capacity minRequired s.alignment then
    .error .capacityExceeded
  else
    .ok (grownState s minRequired, s.outstanding.map (fun e => e.token))

/-- Modelled from the spec (§4.1 step 2): the candidate offset is the
ring cursor, wrapped to 0 when the aligned size does not fit before
`capacity` (the tail space is forfeited; a region never spans the wrap
boundary). -/
def reserveCandidate (s : StagingState) (alignedSize : Nat) : Nat :=
  if s.capacity < s.frontOffset + alignedSize then 0 else s.frontOffset

/-- Modelled from the spec (§4.1 steps 2-4): the no-growth path of
`getNextFreeOffset`.  Overlapping outstanding entries are reclaimed by
blocking flush; the cursor advances past the region (mod capacity when it
lands exactly on the boundary). -/
def reserveNoGrow (s : StagingState) (alignedSize : Nat) : ReserveResult :=
  { region := ⟨reserveCandidate s alignedSize, alignedSize⟩
    state := { s with
      frontOffset := (reserveCandidate s alignedSize + alignedSize) % s.capacity
      outstanding :=
        (reclaimUntilFree (reserveCandidate s alignedSize) alignedSize s.outstanding).1 }
    waited :=
      (reclaimUntilFree (reserveCandidate s alignedSize) alignedSize s.outstanding).2 }

/-- Modelled from the spec (§4.1, body in the missing
`VulkanStagingDevice.cpp`): `getNextFreeOffset`.  The size is rounded up
to the alignment; if the aligned size exceeds the capacity the capacity
manager grows the buffer (failing with `capacityExceeded` when the bound
is exceeded, state untouched) and the request retries on the grown,
empty buffer. -/
def getNextFreeOffset (s : StagingState) (size : Nat) :
    Except StagingError ReserveResult :=
  if s.capacity < getAlignedSize size s.alignment then
    match growState s (getAlignedSize size s.alignment) with
    | .error e => .error e
    | .ok (s1, waitedAll) =>
      .ok { reserveNoGrow s1 (getAlignedSize size s.alignment) with
            waited := waitedAll ++ (reserveNoGrow s1 (getAlignedSize size s.alignment)).waited }
  else
    .ok (reserveNoGrow s (getAlignedSize size s.alignment))

/-- Modelled from the spec (§4.4): one upload request of the transfer
dispatcher, as far as the allocator and tracker are concerned: reserve a
region, submit the device copy (issuing the next completion token) and
register the region with the completion tracker (appended, keeping the
tracker ordered oldest first).  Returns the reserved region, the new
state and the tokens the call blocked on. -/
def uploadStep (s : StagingState) (size : Nat) :
    Except StagingError (MemoryRegionDesc × StagingState × List Nat) :=
  match getNextFreeOffset s size with
  | .error e => .error e
  | .ok r =>
    .ok (r.region,
      { r.state with
        outstanding := r.state.outstanding ++ [⟨r.state.nextToken, r.region⟩]
        nextToken := r.state.nextToken + 1 },
      r.waited)

/-- Modelled from the spec: running a sequence of upload requests,
collecting the returned regions in order and all tokens blocked on. -/
def runUploads (s : StagingState) :
    List Nat → Except StagingError (List MemoryRegionDesc × StagingState × List Nat)
  | [] => .ok ([], s, [])
  | size :: rest =>
    match uploadStep s size with
    | .error e => .error e
    | .ok (reg, s1, w) =>
      match runUploads s1 rest with
      | .error e => .error e
      | .ok (regs, s2, ws) => .ok (reg :: regs, s2, w ++ ws)

/-- The engine state at construction: given capacity and the
implementation-defined maximum, the buffer alignment is 16
(`stagingBufferAlignment_ = 16` in the header), the ring cursor is 0 and
the tracker is empty. -/
def initState (capacity maxCapacity : Nat) : StagingState :=
  { capacity := capacity
    alignment := 16
    maxCapacity := maxCapacity
    frontOffset := 0
    outstanding := []
    nextToken := 0 }

/-- Total aligned size of a list of request sizes. -/
def sumAligned (alignment : Nat) (l : List Nat) : Nat :=
  (l.map (fun sz => getAlignedSize sz alignment)).sum

/-- The pairwise non-overlap invariant of the completion tracker: no two
unreclaimed outstanding regions intersect. -/
def DisjointOutstanding (l : List OutstandingTransfer) : Prop :=
  l.Pairwise (fun a b => regionsOverlap a.region b.region = false)

/-- A byte buffer is a list of byte values; writing `data` at byte offset
`off` replaces the range `[off, off + data.length)`. -/
def storeBytes (buf : List Nat) (off : Nat) (data : List Nat) : List Nat :=
  buf.take off ++ data ++ buf.drop (off + data.length)

/-- Reading `n` bytes at byte offset `off`. -/
def loadBytes (buf : List Nat) (off n : Nat) : List Nat :=
  (buf.drop off).take n

/-- Modelled from the spec (§4.4, body of `bufferSubData` in the missing
`VulkanStagingDevice.cpp`): upload to a buffer.  The source bytes are
copied into the staging buffer at the reserved region's offset, then the
device copy moves them from the staging region to the destination buffer
at `dstOffset`.  Returns the updated staging and destination buffers. -/
def bufferSubData (staging dst : List Nat) (stagingOff dstOffset : Nat)
    (data : List Nat) : List Nat × List Nat :=
  (storeBytes staging stagingOff data,
   storeBytes dst dstOffset
     (loadBytes (storeBytes staging stagingOff data) stagingOff data.length))

/-- Modelled from the spec (§4.4, body of `getBufferSubData` in the
missing `VulkanStagingDevice.cpp`): download from a buffer.  The device
copy moves `size` bytes from the source buffer at `srcOffset` into the
staging buffer at the reserved region's offset; after the blocking wait
the bytes are copied out to the host.  Returns the updated staging buffer
and the bytes delivered to the host. -/
def getBufferSubData (staging src : List Nat) (stagingOff srcOffset size : Nat) :
    List Nat × List Nat :=
  (storeBytes staging stagingOff (loadBytes src srcOffset size),
   loadBytes (storeBytes staging stagingOff (loadBytes src srcOffset size))
     stagingOff size)

/-! Helper lemmas. -/

theorem truncU32_eq_self_iff (n : Nat) : truncU32 n = n ↔ n < 2 ^ 32 := by
  constructor
  · intro h
    rw [← h]
    exact Nat.mod_lt _ (by norm_num)
  · exact Nat.mod_eq_of_lt

theorem alignUp_ge (n a : Nat) (ha : 0 < a) : n ≤ alignUp n a := by
  have h : n + a - 1 < (n + a - 1) / a * a + a := Nat.lt_div_mul_add ha
  unfold alignUp
  generalize (n + a - 1) / a * a = t at h ⊢
  omega

theorem alignUp_dvd (n a : Nat) : a ∣ alignUp n a :=
  dvd_mul_left a _

theorem alignUp_lt (n a : Nat) (ha : 0 < a) : alignUp n a < n + a := by
  have h : (n + a - 1) / a * a ≤ n + a - 1 := Nat.div_mul_le_self _ _
  unfold alignUp
  generalize (n + a - 1) / a * a = t at h ⊢
  omega

theorem getAlignedSize_eq_alignUp (size a : Nat) :
    getAlignedSize size a = alignUp size a := rfl

theorem getAlignedSize_ge (size a : Nat) (ha : 0 < a) :
    size ≤ getAlignedSize size a := alignUp_ge size a ha

theorem getAlignedSize_lt (size a : Nat) (ha : 0 < a) :
    getAlignedSize size a < size + a := alignUp_lt size a ha

theorem getAlignedSize_dvd (size a : Nat) : a ∣ getAlignedSize size a :=
  alignUp_dvd size a

theorem getAlignedSize_pos (size a : Nat) (ha : 0 < a) (hsz : 0 < size) :
    0 < getAlignedSize size a :=
  Nat.lt_of_lt_of_le hsz (getAlignedSize_ge size a ha)

theorem mod_le_cases (x c : Nat) (h : x ≤ c) : x % c = x ∨ x % c = 0 := by
  rcases Nat.lt_or_ge x c with h1 | h1
  · exact Or.inl (Nat.mod_eq_of_lt h1)
  · have hx : x = c := Nat.le_antisymm h h1
    subst hx
    exact Or.inr (Nat.mod_self x)

theorem rangeOverlaps_false_of_le (off sz : Nat) (r : MemoryRegionDesc)
    (h : r.srcOffset + r.alignedSize ≤ off) : rangeOverlaps off sz r = false := by
  unfold rangeOverlaps
  simp only [Bool.and_eq_false_iff, decide_eq_false_iff_not, Nat.not_lt]
  exact Or.inl h

theorem rangeOverlaps_false_of_ge (off sz : Nat) (r : MemoryRegionDesc)
    (h : off + sz ≤ r.srcOffset) : rangeOverlaps off sz r = false := by
  unfold rangeOverlaps
  simp only [Bool.and_eq_false_iff, decide_eq_false_iff_not, Nat.not_lt]
  exact Or.inr h

theorem regionsOverlap_comm (a b : MemoryRegionDesc) :
    regionsOverlap a b = regionsOverlap b a := by
  simp only [regionsOverlap, rangeOverlaps]
  exact Bool.and_comm _ _

theorem reclaimUntilFree_decomp (off sz : Nat) (l : List OutstandingTransfer) :
    ∃ pre, l = pre ++ (reclaimUntilFree off sz l).1 ∧
      (reclaimUntilFree off sz l).2 = pre.map (fun e => e.token) := by
  induction l with
  | nil => exact ⟨[], rfl, rfl⟩
  | cons e rest ih =>
    by_cases h : (e :: rest).any (fun t => rangeOverlaps off sz t.region) = true
    · rcases ih with ⟨pre, hpre, hmap⟩
      refine ⟨e :: pre, ?_, ?_⟩
      · simp only [reclaimUntilFree, if_pos h, List.cons_append]
        exact congrArg (e :: ·) hpre
      · simp only [reclaimUntilFree, if_pos h, List.map_cons]
        exact congrArg (e.token :: ·) hmap
    · exact ⟨[], by simp only [reclaimUntilFree, if_neg h, List.nil_append],
        by simp only [reclaimUntilFree, if_neg h, List.map_nil]⟩

theorem reclaimUntilFree_no_overlap (off sz : Nat) (l : List OutstandingTransfer) :
    ∀ e ∈ (reclaimUntilFree off sz l).1, rangeOverlaps off sz e.region = false := by
  induction l with
  | nil => intro e he; simp [reclaimUntilFree] at he
  | cons x rest ih =>
    by_cases h : (x :: rest).any (fun t => rangeOverlaps off sz t.region) = true
    · simpa only [reclaimUntilFree, if_pos h] using ih
    · intro e he
      simp only [reclaimUntilFree, if_neg h] at he
      have h2 : ∀ t, ¬(t ∈ x :: rest ∧ rangeOverlaps off sz t.region = true) := by
        simpa only [List.any_eq_true, not_exists] using h
      exact Bool.eq_false_iff.mpr (fun hc => h2 e ⟨he, hc⟩)

theorem reclaimUntilFree_of_none (off sz : Nat) (l : List OutstandingTransfer)
    (h : ∀ e ∈ l, rangeOverlaps off sz e.region = false) :
    reclaimUntilFree off sz l = (l, []) := by
  cases l with
  | nil => rfl
  | cons e rest =>
    have hany : ((e :: rest).any (fun t => rangeOverlaps off sz t.region)) = false := by
      simp only [List.any_eq_false]
      intro t ht
      simp [h t ht]
    simp [reclaimUntilFree, hany]

theorem reclaimUntilFree_sublist (off sz : Nat) (l : List OutstandingTransfer) :
    (reclaimUntilFree off sz l).1.Sublist l := by
  rcases reclaimUntilFree_decomp off sz l with ⟨pre, hpre, -⟩
  have h : (reclaimUntilFree off sz l).1.Sublist (pre ++ (reclaimUntilFree off sz l).1) :=
    List.sublist_append_right pre _
  rw [← hpre] at h
  exact h

theorem flushOutstandingFences_eq (done : Nat → Bool) (l : List OutstandingTransfer) :
    flushOutstandingFences done l =
      (l.dropWhile (fun e => done e.token),
       ((l.takeWhile (fun e => done e.token)).map (fun e => e.region.alignedSize)).sum) := by
  induction l with
  | nil => rfl
  | cons e rest ih =>
    by_cases h : done e.token
    · simp [flushOutstandingFences, h, ih, List.dropWhile_cons, List.takeWhile_cons]
    · simp [flushOutstandingFences, h, List.dropWhile_cons, List.takeWhile_cons]

theorem mem_dropWhile_after_stop (p : OutstandingTransfer → Bool)
    (l1 : List OutstandingTransfer) (e : OutstandingTransfer)
    (l2 : List OutstandingTransfer) (hpe : p e = false) :
    ∀ f ∈ e :: l2, f ∈ (l1 ++ e :: l2).dropWhile p := by
  induction l1 with
  | nil =>
    intro f hf
    simpa [List.dropWhile_cons, hpe] using hf
  | cons a l1' ih =>
    intro f hf
    by_cases ha : p a
    · simpa [List.dropWhile_cons, ha] using ih f hf
    · simp only [List.cons_append, List.dropWhile_cons, ha, Bool.false_eq_true, if_false]
      exact List.mem_cons_of_mem a (List.mem_append_right l1' hf)

theorem getNextFreeOffset_ok_cases (s : StagingState) (size : Nat) (r : ReserveResult)
    (h : getNextFreeOffset s size = .ok r) :
    (s.capacity < getAlignedSize size s.alignment ∧
      growCapacity s.capacity (getAlignedSize size s.alignment) s.alignment ≤ s.maxCapacity ∧
      r = { reserveNoGrow (grownState s (getAlignedSize size s.alignment))
              (getAlignedSize size s.alignment) with
            waited := s.outstanding.map (fun e => e.token) ++
              (reserveNoGrow (grownState s (getAlignedSize size s.alignment))
                (getAlignedSize size s.alignment)).waited }) ∨
    (getAlignedSize size s.alignment ≤ s.capacity ∧
      r = reserveNoGrow s (getAlignedSize size s.alignment)) := by
  by_cases hc : s.capacity < getAlignedSize size s.alignment
  · left
    by_cases hm : s.maxCapacity <
        growCapacity s.capacity (getAlignedSize size s.alignment) s.alignment
    · simp only [getNextFreeOffset, if_pos hc, growState, if_pos hm] at h
      exact absurd h (by simp)
    · simp only [getNextFreeOffset, if_pos hc, growState, if_neg hm] at h
      exact ⟨hc, Nat.le_of_not_lt hm, (Except.ok.inj h).symm⟩
  · right
    refine ⟨Nat.le_of_not_lt hc, ?_⟩
    simp only [getNextFreeOffset, if_neg hc] at h
    exact (Except.ok.inj h).symm

theorem getNextFreeOffset_no_reclaim (s : StagingState) (size : Nat)
    (hcap : getAlignedSize size s.alignment ≤ s.capacity)
    (hfit : s.frontOffset + getAlignedSize size s.alignment ≤ s.capacity)
    (hout : ∀ e ∈ s.outstanding,
      e.region.srcOffset + e.region.alignedSize ≤ s.frontOffset) :
    getNextFreeOffset s size = .ok
      { region := ⟨s.frontOffset, getAlignedSize size s.alignment⟩
        state := { s with
          frontOffset := (s.frontOffset + getAlignedSize size s.alignment) % s.capacity }
        waited := [] } := by
  have hc : ¬(s.capacity < getAlignedSize size s.alignment) := Nat.not_lt.mpr hcap
  have hcand : reserveCandidate s (getAlignedSize size s.alignment) = s.frontOffset := by
    unfold reserveCandidate
    exact if_neg (Nat.not_lt.mpr hfit)
  have hrec : reclaimUntilFree s.frontOffset (getAlignedSize size s.alignment)
      s.outstanding = (s.outstanding, []) :=
    reclaimUntilFree_of_none _ _ _
      (fun e he => rangeOverlaps_false_of_le _ _ _ (hout e he))
  simp only [getNextFreeOffset, if_neg hc, reserveNoGrow, hcand, hrec]

theorem uploadStep_no_reclaim (s : StagingState) (sz : Nat)
    (hcap : getAlignedSize sz s.alignment ≤ s.capacity)
    (hfit : s.frontOffset + getAlignedSize sz s.alignment ≤ s.capacity)
    (hout : ∀ e ∈ s.outstanding,
      e.region.srcOffset + e.region.alignedSize ≤ s.frontOffset) :
    uploadStep s sz = .ok (⟨s.frontOffset, getAlignedSize sz s.alignment⟩,
      { s with
        frontOffset := (s.frontOffset + getAlignedSize sz s.alignment) % s.capacity
        outstanding := s.outstanding ++
          [⟨s.nextToken, ⟨s.frontOffset, getAlignedSize sz s.alignment⟩⟩]
        nextToken := s.nextToken + 1 }, []) := by
  unfold uploadStep
  rw [getNextFreeOffset_no_reclaim s sz hcap hfit hout]

theorem sumAligned_cons (a sz : Nat) (l : List Nat) :
    sumAligned a (sz :: l) = getAlignedSize sz a + sumAligned a l := by
  simp [sumAligned]

theorem runUploads_cons_ok (s : StagingState) (sz : Nat) (rest : List Nat)
    (reg : MemoryRegionDesc) (s1 : StagingState) (w : List Nat)
    (h1 : uploadStep s sz = .ok (reg, s1, w))
    (regs : List MemoryRegionDesc) (s2 : StagingState) (ws : List Nat)
    (h2 : runUploads s1 rest = .ok (regs, s2, ws)) :
    runUploads s (sz :: rest) = .ok (reg :: regs, s2, w ++ ws) := by
  simp [runUploads, h1, h2]

theorem runUploads_packed (l : List Nat) :
    ∀ s : StagingState, 0 < s.alignment → (∀ x ∈ l, 0 < x) →
    (∀ e ∈ s.outstanding, e.region.srcOffset + e.region.alignedSize ≤ s.frontOffset) →
    s.frontOffset + sumAligned s.alignment l ≤ s.capacity →
    ∃ regs s₂, runUploads s l = .ok (regs, s₂, []) ∧
      (∀ r ∈ regs, s.frontOffset ≤ r.srcOffset ∧
        r.srcOffset + r.alignedSize ≤ s.frontOffset + sumAligned s.alignment l) ∧
      regs.Pairwise (fun a b => regionsOverlap a b = false) ∧
      s₂.outstanding.map (fun e => e.region) =
        s.outstanding.map (fun e => e.region) ++ regs := by
  induction l with
  | nil =>
    intro s _ _ _ _
    exact ⟨[], s, rfl, by simp, List.Pairwise.nil, by simp⟩
  | cons sz rest ih =>
    intro s ha hpos hbelow hsum
    rw [sumAligned_cons] at hsum
    have hstep := uploadStep_no_reclaim s sz (by omega) (by omega) hbelow
    cases rest with
    | nil =>
      refine ⟨[⟨s.frontOffset, getAlignedSize sz s.alignment⟩],
        { s with
          frontOffset := (s.frontOffset + getAlignedSize sz s.alignment) % s.capacity
          outstanding := s.outstanding ++
            [⟨s.nextToken, ⟨s.frontOffset, getAlignedSize sz s.alignment⟩⟩]
          nextToken := s.nextToken + 1 },
        runUploads_cons_ok s sz [] _ _ [] hstep [] _ [] rfl, ?_, ?_, by simp⟩
      · intro r hr
        simp only [List.mem_singleton] at hr
        subst hr
        rw [sumAligned_cons]
        refine ⟨Nat.le_refl _, ?_⟩
        show s.frontOffset + getAlignedSize sz s.alignment ≤
          s.frontOffset + (getAlignedSize sz s.alignment + sumAligned s.alignment [])
        omega
      · simp
    | cons x rest' =>
      have hx : 0 < x := hpos x (by simp)
      have hAx : 0 < getAlignedSize x s.alignment := getAlignedSize_pos x _ ha hx
      have hSpos : 0 < sumAligned s.alignment (x :: rest') := by
        rw [sumAligned_cons]
        exact Nat.lt_of_lt_of_le hAx (Nat.le_add_right _ _)
      have hlt : s.frontOffset + getAlignedSize sz s.alignment < s.capacity := by omega
      have hmod : (s.frontOffset + getAlignedSize sz s.alignment) % s.capacity =
          s.frontOffset + getAlignedSize sz s.alignment := Nat.mod_eq_of_lt hlt
      obtain ⟨regs', s₂, hrun', hb', hp', hm'⟩ :=
        ih { s with
              frontOffset := (s.frontOffset + getAlignedSize sz s.alignment) % s.capacity
              outstanding := s.outstanding ++
                [⟨s.nextToken, ⟨s.frontOffset, getAlignedSize sz s.alignment⟩⟩]
              nextToken := s.nextToken + 1 }
          ha (fun y hy => hpos y (List.mem_cons_of_mem sz hy))
          (by
            intro e he
            simp only [List.mem_append, List.mem_singleton] at he
            simp only [hmod]
            rcases he with he | he
            · exact Nat.le_trans (hbelow e he) (Nat.le_add_right _ _)
            · subst he
              exact Nat.le_refl _)
          (by simp only [hmod]; omega)
      refine ⟨⟨s.frontOffset, getAlignedSize sz s.alignment⟩ :: regs', s₂,
        runUploads_cons_ok s sz (x :: rest') _ _ [] hstep regs' s₂ [] hrun', ?_, ?_, ?_⟩
      · intro r hr
        rw [sumAligned_cons]
        rcases List.mem_cons.mp hr with hr | hr
        · subst hr
          refine ⟨Nat.le_refl _, ?_⟩
          show s.frontOffset + getAlignedSize sz s.alignment ≤
            s.frontOffset + (getAlignedSize sz s.alignment + sumAligned s.alignment (x :: rest'))
          omega
        · have h1 := hb' r hr
          simp only [hmod] at h1
          exact ⟨by omega, by omega⟩
      · refine List.Pairwise.cons ?_ hp'
        intro r hr
        have h1 := hb' r hr
        simp only [hmod] at h1
        exact rangeOverlaps_false_of_ge s.frontOffset (getAlignedSize sz s.alignment) r h1.1
      · rw [hm']
        simp [List.map_append, List.append_assoc]

/-! Claim theorems. -/

/-- C1: for every sequence of upload requests whose total aligned size is
at most the staging buffer capacity, issued before any reclamation, the
regions returned by reserve (`getNextFreeOffset`) are pairwise
non-overlapping (and are exactly the unreclaimed outstanding regions);
more generally, every upload step preserves the invariant that no two
unreclaimed outstanding regions overlap. -/
theorem reserved_regions_pairwise_disjoint (C M : Nat) (l : List Nat)
    (hpos : ∀ x ∈ l, 0 < x) (hsum : sumAligned 16 l ≤ C) :
    (∃ regs s₂, runUploads (initState C M) l = .ok (regs, s₂, []) ∧
      regs.Pairwise (fun a b => regionsOverlap a b = false) ∧
      s₂.outstanding.map (fun e => e.region) = regs) ∧
    (∀ s size reg s' w, DisjointOutstanding s.outstanding →
      uploadStep s size = .ok (reg, s', w) → DisjointOutstanding s'.outstanding) := by
  constructor
  · obtain ⟨regs, s₂, hrun, -, hpair, hmap⟩ :=
      runUploads_packed l (initState C M) (by simp [initState]) hpos (by simp [initState])
        (by simpa [initState] using hsum)
    exact ⟨regs, s₂, hrun, hpair, by simpa [initState] using hmap⟩
  · intro s size reg s' w hdisj hstep
    unfold uploadStep at hstep
    cases hr : getNextFreeOffset s size with
    | error e => rw [hr] at hstep; exact absurd hstep (by simp)
    | ok r =>
      rw [hr] at hstep
      simp only [Except.ok.injEq, Prod.mk.injEq] at hstep
      obtain ⟨-, hs', -⟩ := hstep
      subst hs'
      have hsub : DisjointOutstanding r.state.outstanding ∧
          ∀ e ∈ r.state.outstanding, regionsOverlap e.region r.region = false := by
        rcases getNextFreeOffset_ok_cases s size r hr with ⟨-, -, hreq⟩ | ⟨-, hreq⟩
        · subst hreq
          constructor
          · simp [DisjointOutstanding, reserveNoGrow, grownState, reclaimUntilFree]
          · intro e he
            simp [reserveNoGrow, grownState, reclaimUntilFree] at he
        · subst hreq
          constructor
          · exact List.Pairwise.sublist (reclaimUntilFree_sublist _ _ _) hdisj
          · intro e he
            have h2 := reclaimUntilFree_no_overlap
              (reserveCandidate s (getAlignedSize size s.alignment))
              (getAlignedSize size s.alignment) s.outstanding e he
            rw [regionsOverlap_comm]
            exact h2
      show DisjointOutstanding (r.state.outstanding ++ [⟨r.state.nextToken, r.region⟩])
      rw [DisjointOutstanding, List.pairwise_append]
      refine ⟨hsub.1, List.pairwise_singleton _ _, ?_⟩
      intro a hb b hb'
      simp only [List.mem_singleton] at hb'
      subst hb'
      exact hsub.2 a hb

/-- C1 witness: three 300-byte uploads into a 1024-byte staging buffer. -/
theorem reserved_regions_pairwise_disjoint_witness :
    (∃ regs s₂, runUploads (initState 1024 4096) [300, 300, 300] = .ok (regs, s₂, []) ∧
      regs.Pairwise (fun a b => regionsOverlap a b = false) ∧
      s₂.outstanding.map (fun e => e.region) = regs) ∧
    (∀ s size reg s' w, DisjointOutstanding s.outstanding →
      uploadStep s size = .ok (reg, s', w) → DisjointOutstanding s'.outstanding) :=
  reserved_regions_pairwise_disjoint 1024 4096 [300, 300, 300] (by decide) (by decide)

/-- C2: a region's bytes are handed out again by `getNextFreeOffset` only
after the owning outstanding transfer's token was observed complete (the
call blocks on exactly those tokens, reported in `waited`); and once an
entry has been reclaimed its bytes are eligible for reuse: with regions
`[304,608)` and `[608,912)` still outstanding and `[0,304)` already
reclaimed, reserving 300 bytes at `frontOffset` 912 returns the recycled
bytes `[0,304)` without blocking on any token. -/
theorem region_reused_only_after_token_complete :
    (∀ s size r, getNextFreeOffset s size = .ok r →
      ∀ e ∈ s.outstanding, regionsOverlap r.region e.region = true →
        e.token ∈ r.waited) ∧
    getNextFreeOffset
        { capacity := 1024, alignment := 16, maxCapacity := 4096, frontOffset := 912,
          outstanding := [⟨1, ⟨304, 304⟩⟩, ⟨2, ⟨608, 304⟩⟩], nextToken := 3 } 300 =
      .ok { region := ⟨0, 304⟩,
            state := { capacity := 1024, alignment := 16, maxCapacity := 4096,
                       frontOffset := 304,
                       outstanding := [⟨1, ⟨304, 304⟩⟩, ⟨2, ⟨608, 304⟩⟩],
                       nextToken := 3 },
            waited := [] } := by
  constructor
  · intro s size r hr e he hov
    rcases getNextFreeOffset_ok_cases s size r hr with ⟨-, -, hreq⟩ | ⟨-, hreq⟩
    · subst hreq
      show e.token ∈ s.outstanding.map (fun e => e.token) ++ _
      exact List.mem_append_left _ (List.mem_map.mpr ⟨e, he, rfl⟩)
    · subst hreq
      obtain ⟨pre, hpre, hmap⟩ := reclaimUntilFree_decomp
        (reserveCandidate s (getAlignedSize size s.alignment))
        (getAlignedSize size s.alignment) s.outstanding
      rw [hpre] at he
      rcases List.mem_append.mp he with hin | hin
      · show e.token ∈ (reclaimUntilFree _ _ s.outstanding).2
        rw [hmap]
        exact List.mem_map.mpr ⟨e, hin, rfl⟩
      · have h2 := reclaimUntilFree_no_overlap
          (reserveCandidate s (getAlignedSize size s.alignment))
          (getAlignedSize size s.alignment) s.outstanding e hin
        simp only [regionsOverlap, reserveNoGrow] at hov
        rw [hov] at h2
        exact absurd h2 (by simp)
  · rfl

/-- C2 witness: reserving 300 bytes at `frontOffset` 912 wraps onto the
still-outstanding region `[0,304)` of token 5, so the call blocks on
token 5 before reusing those bytes. -/
theorem region_reused_only_after_token_complete_witness : (5 : Nat) ∈ [5] :=
  region_reused_only_after_token_complete.1
    { capacity := 1024, alignment := 16, maxCapacity := 4096, frontOffset := 912,
      outstanding := [⟨5, ⟨0, 304⟩⟩], nextToken := 6 } 300
    { region := ⟨0, 304⟩,
      state := { capacity := 1024, alignment := 16, maxCapacity := 4096,
                 frontOffset := 304, outstanding := [], nextToken := 6 },
      waited := [5] }
    rfl ⟨5, ⟨0, 304⟩⟩ (by simp) (by decide)

/-- C3: `flushOutstandingFences` processes the tracker in submission
order, oldest entry first: the reclaimed entries are exactly the longest
completed oldest-first run, the remaining entries are the suffix from the
first not-yet-complete entry on, and no entry registered at or after the
first not-yet-complete one is reclaimed. -/
theorem flush_oldest_first_stops_at_incomplete (done : Nat → Bool)
    (l : List OutstandingTransfer) :
    (flushOutstandingFences done l).1 = l.dropWhile (fun e => done e.token) ∧
    (flushOutstandingFences done l).2 =
      ((l.takeWhile (fun e => done e.token)).map (fun e => e.region.alignedSize)).sum ∧
    (∀ l1 e l2, l = l1 ++ e :: l2 → done e.token = false →
      ∀ f ∈ e :: l2, f ∈ (flushOutstandingFences done l).1) := by
  refine ⟨?_, ?_, ?_⟩
  · rw [flushOutstandingFences_eq]
  · rw [flushOutstandingFences_eq]
  · intro l1 e l2 hl hne f hf
    rw [flushOutstandingFences_eq]
    subst hl
    exact mem_dropWhile_after_stop _ l1 e l2 hne f hf

/-- C3 witness: token 2 is not yet complete, so entries 2 and 3 survive a
non-blocking flush that reclaims entries 0 and 1. -/
theorem flush_oldest_first_stops_at_incomplete_witness :
    (⟨3, ⟨64, 16⟩⟩ : OutstandingTransfer) ∈
      (flushOutstandingFences (fun t => decide (t < 2))
        [⟨0, ⟨0, 16⟩⟩, ⟨1, ⟨16, 32⟩⟩, ⟨2, ⟨48, 16⟩⟩, ⟨3, ⟨64, 16⟩⟩]).1 :=
  (flush_oldest_first_stops_at_incomplete (fun t => decide (t < 2))
      [⟨0, ⟨0, 16⟩⟩, ⟨1, ⟨16, 32⟩⟩, ⟨2, ⟨48, 16⟩⟩, ⟨3, ⟨64, 16⟩⟩]).2.2
    [⟨0, ⟨0, 16⟩⟩, ⟨1, ⟨16, 32⟩⟩] ⟨2, ⟨48, 16⟩⟩ [⟨3, ⟨64, 16⟩⟩] rfl (by decide)
    ⟨3, ⟨64, 16⟩⟩ (by simp)

/-- C4: whenever the aligned size does not fit between `frontOffset` and
`capacity`, the returned region starts at offset 0 (the tail space is
forfeited; no region spans the wrap boundary); concretely, with capacity
1024 and alignment 16, four sequential 300-byte requests (aligned to 304)
place the fourth at offset 0, after blocking on the first region's
token (token 0). -/
theorem wrap_allocates_at_offset_zero :
    (∀ s size, getAlignedSize size s.alignment ≤ s.capacity →
      s.capacity < s.frontOffset + getAlignedSize size s.alignment →
      ∃ r, getNextFreeOffset s size = .ok r ∧ r.region.srcOffset = 0 ∧
        r.region.alignedSize = getAlignedSize size s.alignment) ∧
    runUploads (initState 1024 4096) [300, 300, 300, 300] =
      .ok ([⟨0, 304⟩, ⟨304, 304⟩, ⟨608, 304⟩, ⟨0, 304⟩],
        { capacity := 1024, alignment := 16, maxCapacity := 4096, frontOffset := 304,
          outstanding := [⟨1, ⟨304, 304⟩⟩, ⟨2, ⟨608, 304⟩⟩, ⟨3, ⟨0, 304⟩⟩],
          nextToken := 4 }, [0]) := by
  constructor
  · intro s size hcap hwrap
    refine ⟨reserveNoGrow s (getAlignedSize size s.alignment), ?_, ?_, rfl⟩
    · simp only [getNextFreeOffset, if_neg (Nat.not_lt.mpr hcap)]
    · simp only [reserveNoGrow, reserveCandidate, if_pos hwrap]
  · rfl

/-- C4 witness: the wrap branch at a concrete state, front offset 912 in
a 1024-byte buffer with an empty tracker. -/
theorem wrap_allocates_at_offset_zero_witness :
    ∃ r, getNextFreeOffset
        { capacity := 1024, alignment := 16, maxCapacity := 4096, frontOffset := 912,
          outstanding := [], nextToken := 0 } 300 = .ok r ∧
      r.region.srcOffset = 0 ∧
      r.region.alignedSize = getAlignedSize 300
        ({ capacity := 1024, alignment := 16, maxCapacity := 4096, frontOffset := 912,
           outstanding := [], nextToken := 0 } : StagingState).alignment :=
  wrap_allocates_at_offset_zero.1
    { capacity := 1024, alignment := 16, maxCapacity := 4096, frontOffset := 912,
      outstanding := [], nextToken := 0 } 300 (by decide) (by decide)

theorem reserveCandidate_dvd (s : StagingState) (A : Nat)
    (hf : s.alignment ∣ s.frontOffset) : s.alignment ∣ reserveCandidate s A := by
  unfold reserveCandidate
  by_cases h : s.capacity < s.frontOffset + A
  · rw [if_pos h]; exact dvd_zero _
  · rw [if_neg h]; exact hf

theorem reserveNoGrow_front_dvd (s : StagingState) (A : Nat)
    (hf : s.alignment ∣ s.frontOffset) (hA : s.alignment ∣ A)
    (hcap : A ≤ s.capacity) :
    s.alignment ∣ (reserveNoGrow s A).state.frontOffset := by
  show s.alignment ∣ (reserveCandidate s A + A) % s.capacity
  have hle : reserveCandidate s A + A ≤ s.capacity := by
    unfold reserveCandidate
    by_cases h : s.capacity < s.frontOffset + A
    · rw [if_pos h]; omega
    · rw [if_neg h]; omega
  rcases mod_le_cases _ _ hle with h | h
  · rw [h]
    exact Nat.dvd_add (reserveCandidate_dvd s A hf) hA
  · rw [h]
    exact dvd_zero _

/-- C5: for every request, `getNextFreeOffset` rounds the size up to the
buffer alignment, `alignedSize = ceil(size / alignment) * alignment`, and
the returned region's offset and size are both multiples of the alignment
(which also keeps `frontOffset` a multiple of the alignment); the
construction-time alignment is 16 bytes. -/
theorem reserve_rounds_to_alignment (s : StagingState) (size : Nat)
    (r : ReserveResult) (ha : 0 < s.alignment) (hsz : 0 < size)
    (hf : s.alignment ∣ s.frontOffset) (h : getNextFreeOffset s size = .ok r) :
    r.region.alignedSize = (size + s.alignment - 1) / s.alignment * s.alignment ∧
    size ≤ r.region.alignedSize ∧
    r.region.alignedSize < size + s.alignment ∧
    s.alignment ∣ r.region.alignedSize ∧
    s.alignment ∣ r.region.srcOffset ∧
    s.alignment ∣ r.state.frontOffset ∧
    (∀ c m, (initState c m).alignment = 16) := by
  have hA : s.alignment ∣ getAlignedSize size s.alignment := getAlignedSize_dvd _ _
  rcases getNextFreeOffset_ok_cases s size r h with ⟨-, -, hreq⟩ | ⟨hcap, hreq⟩
  · have hcap' : getAlignedSize size s.alignment ≤
        (grownState s (getAlignedSize size s.alignment)).capacity :=
      Nat.le_trans (Nat.le_max_right (s.capacity * 2) _)
        (alignUp_ge _ _ ha)
    have hoff : (grownState s (getAlignedSize size s.alignment)).alignment ∣
        reserveCandidate (grownState s (getAlignedSize size s.alignment))
          (getAlignedSize size s.alignment) :=
      reserveCandidate_dvd _ _ (dvd_zero _)
    have hfr := reserveNoGrow_front_dvd
      (grownState s (getAlignedSize size s.alignment))
      (getAlignedSize size s.alignment) (dvd_zero _) hA hcap'
    subst hreq
    exact ⟨rfl, getAlignedSize_ge size _ ha, getAlignedSize_lt size _ ha, hA,
      hoff, hfr, fun c m => rfl⟩
  · have hfr := reserveNoGrow_front_dvd s (getAlignedSize size s.alignment) hf hA hcap
    subst hreq
    exact ⟨rfl, getAlignedSize_ge size _ ha, getAlignedSize_lt size _ ha, hA,
      reserveCandidate_dvd s _ hf, hfr, fun c m => rfl⟩

/-- C5 witness: a 100-byte request in a fresh 256-byte buffer is rounded
up to 112 bytes at offset 0. -/
theorem reserve_rounds_to_alignment_witness :
    ∃ r, getNextFreeOffset (initState 256 4096) 100 = .ok r ∧
      r.region.alignedSize = (100 + 16 - 1) / 16 * 16 ∧
      100 ≤ r.region.alignedSize ∧
      r.region.alignedSize < 100 + 16 ∧
      16 ∣ r.region.alignedSize ∧
      16 ∣ r.region.srcOffset ∧
      16 ∣ r.state.frontOffset := by
  refine ⟨reserveNoGrow (initState 256 4096) 112, rfl, ?_⟩
  have h := reserve_rounds_to_alignment (initState 256 4096) 100
    (reserveNoGrow (initState 256 4096) 112) (by decide) (by decide)
    (by decide) rfl
  exact ⟨h.1, h.2.1, h.2.2.1, h.2.2.2.1, h.2.2.2.2.1, h.2.2.2.2.2.1⟩

/-- C6: a request whose aligned size exceeds the capacity triggers exactly
one growth: the new capacity is `max(capacity * 2, minRequired)` rounded
up to the alignment (failing if it exceeds the implementation-defined
maximum); growth waits on every previously outstanding token, resets
`frontOffset` to 0 and clears the tracker, and the triggering request then
succeeds at offset 0 of the grown buffer.  Concretely a 200-byte request
on a 64-byte buffer grows it to 208 bytes and lands at offset 0. -/
theorem growth_policy_and_reset (s : StagingState) (size : Nat)
    (ha : 0 < s.alignment)
    (hg : s.capacity < getAlignedSize size s.alignment)
    (hmax : growCapacity s.capacity (getAlignedSize size s.alignment) s.alignment ≤
      s.maxCapacity) :
    growState s (getAlignedSize size s.alignment) =
      .ok (grownState s (getAlignedSize size s.alignment),
        s.outstanding.map (fun e => e.token)) ∧
    (grownState s (getAlignedSize size s.alignment)).capacity =
      alignUp (max (s.capacity * 2) (getAlignedSize size s.alignment)) s.alignment ∧
    (grownState s (getAlignedSize size s.alignment)).frontOffset = 0 ∧
    (grownState s (getAlignedSize size s.alignment)).outstanding = [] ∧
    (∃ r, getNextFreeOffset s size = .ok r ∧
      r.waited = s.outstanding.map (fun e => e.token) ∧
      r.region.srcOffset = 0 ∧
      r.region.alignedSize = getAlignedSize size s.alignment ∧
      getAlignedSize size s.alignment ≤ r.state.capacity ∧
      r.state.capacity =
        growCapacity s.capacity (getAlignedSize size s.alignment) s.alignment) ∧
    uploadStep (initState 64 4096) 200 =
      .ok (⟨0, 208⟩,
        { capacity := 208, alignment := 16, maxCapacity := 4096, frontOffset := 0,
          outstanding := [⟨0, ⟨0, 208⟩⟩], nextToken := 1 }, []) := by
  have hm : ¬(s.maxCapacity <
      growCapacity s.capacity (getAlignedSize size s.alignment) s.alignment) :=
    Nat.not_lt.mpr hmax
  refine ⟨?_, rfl, rfl, rfl, ?_, rfl⟩
  · simp only [growState, if_neg hm]
  · refine ⟨{ reserveNoGrow (grownState s (getAlignedSize size s.alignment))
        (getAlignedSize size s.alignment) with
        waited := s.outstanding.map (fun e => e.token) ++
          (reserveNoGrow (grownState s (getAlignedSize size s.alignment))
            (getAlignedSize size s.alignment)).waited }, ?_, ?_, ?_, rfl, ?_, rfl⟩
    · simp only [getNextFreeOffset, if_pos hg, growState, if_neg hm]
    · simp [reserveNoGrow, grownState, reclaimUntilFree]
    · simp [reserveNoGrow, reserveCandidate, grownState]
    · exact Nat.le_trans (Nat.le_max_right (s.capacity * 2) _) (alignUp_ge _ _ ha)

/-- C6 witness: the 64-byte buffer with pending transfers grows for a
200-byte request, waiting on all outstanding tokens. -/
theorem growth_policy_and_reset_witness :
    growState
        { capacity := 64, alignment := 16, maxCapacity := 4096, frontOffset := 32,
          outstanding := [⟨0, ⟨0, 16⟩⟩, ⟨1, ⟨16, 16⟩⟩], nextToken := 2 } 208 =
      .ok ({ capacity := 208, alignment := 16, maxCapacity := 4096, frontOffset := 0,
             outstanding := [], nextToken := 2 }, [0, 1]) ∧
    ∃ r, getNextFreeOffset
        { capacity := 64, alignment := 16, maxCapacity := 4096, frontOffset := 32,
          outstanding := [⟨0, ⟨0, 16⟩⟩, ⟨1, ⟨16, 16⟩⟩], nextToken := 2 } 200 =
      .ok r ∧ r.waited = [0, 1] ∧ r.region.srcOffset = 0 := by
  have h := growth_policy_and_reset
    { capacity := 64, alignment := 16, maxCapacity := 4096, frontOffset := 32,
      outstanding := [⟨0, ⟨0, 16⟩⟩, ⟨1, ⟨16, 16⟩⟩], nextToken := 2 } 200
    (by decide) (by decide) (by decide)
  obtain ⟨r, hr, hw, hoff, -⟩ := h.2.2.2.2.1
  exact ⟨h.1, r, hr, hw, hoff⟩

theorem loadBytes_storeBytes (buf : List Nat) (off : Nat) (data : List Nat)
    (h : off ≤ buf.length) :
    loadBytes (storeBytes buf off data) off data.length = data := by
  unfold loadBytes storeBytes
  rw [List.append_assoc,
    List.drop_left' (by rw [List.length_take]; omega),
    List.take_left' rfl]

/-- C7: uploading `N` bytes at `dstOffset` into a destination buffer with
`bufferSubData` and then downloading the same range with
`getBufferSubData` yields exactly the original bytes (the staging regions
used by the two transfers may differ and may even be the recycled same
bytes). -/
theorem buffer_upload_download_roundtrip
    (staging dst staging2 : List Nat) (stagingOff dstOffset stagingOff2 : Nat)
    (data : List Nat)
    (h1 : stagingOff + data.length ≤ staging.length)
    (h2 : dstOffset + data.length ≤ dst.length)
    (h3 : stagingOff2 + data.length ≤ staging2.length) :
    (getBufferSubData staging2 (bufferSubData staging dst stagingOff dstOffset data).2
      stagingOff2 dstOffset data.length).2 = data := by
  unfold getBufferSubData bufferSubData
  rw [loadBytes_storeBytes staging stagingOff data (by omega)]
  rw [loadBytes_storeBytes dst dstOffset data (by omega)]
  exact loadBytes_storeBytes staging2 stagingOff2 data (by omega)

/-- C7 witness: the bytes `[5, 6]` survive an upload at destination
offset 1 followed by a download of the same range. -/
theorem buffer_upload_download_roundtrip_witness :
    (getBufferSubData [7, 7, 7, 7]
      (bufferSubData [0, 0, 0, 0] [9, 9, 9, 9] 1 1 [5, 6]).2 2 1 [5, 6].length).2 =
      [5, 6] :=
  buffer_upload_download_roundtrip [0, 0, 0, 0] [9, 9, 9, 9] [7, 7, 7, 7] 1 1 2
    [5, 6] (by decide) (by decide) (by decide)

/-- C8: a request whose aligned size exceeds the implementation-defined
maximum buffer capacity fails with `capacityExceeded`.  The error is
raised before any state mutation and is propagated to the caller through
`getNextFreeOffset`, `uploadStep` and `runUploads` (never swallowed), and
no success result is produced, so the caller's engine state is exactly
the state it held before the failed request. -/
theorem capacity_exceeded_reported (s : StagingState) (size : Nat)
    (ha : 0 < s.alignment) (hcm : s.capacity ≤ s.maxCapacity)
    (h : s.maxCapacity < getAlignedSize size s.alignment) :
    getNextFreeOffset s size = .error .capacityExceeded ∧
    uploadStep s size = .error .capacityExceeded ∧
    runUploads s [size] = .error .capacityExceeded ∧
    ∀ r, getNextFreeOffset s size ≠ .ok r := by
  have hg : s.capacity < getAlignedSize size s.alignment := Nat.lt_of_le_of_lt hcm h
  have hnc : s.maxCapacity <
      growCapacity s.capacity (getAlignedSize size s.alignment) s.alignment :=
    Nat.lt_of_lt_of_le h
      (Nat.le_trans (Nat.le_max_right (s.capacity * 2) _) (alignUp_ge _ _ ha))
  have h1 : getNextFreeOffset s size = .error .capacityExceeded := by
    simp only [getNextFreeOffset, if_pos hg, growState, if_pos hnc]
  have h2 : uploadStep s size = .error .capacityExceeded := by
    unfold uploadStep
    rw [h1]
  refine ⟨h1, h2, ?_, ?_⟩
  · unfold runUploads
    rw [h2]
  · intro r hr
    rw [h1] at hr
    exact absurd hr (by simp)

/-- C8 witness: a 200-byte request (aligned to 208) against a 64-byte
buffer whose maximum capacity is 100 bytes. -/
theorem capacity_exceeded_reported_witness :
    getNextFreeOffset (initState 64 100) 200 = .error .capacityExceeded ∧
    uploadStep (initState 64 100) 200 = .error .capacityExceeded ∧
    runUploads (initState 64 100) [200] = .error .capacityExceeded ∧
    ∀ r, getNextFreeOffset (initState 64 100) 200 ≠ .ok r :=
  capacity_exceeded_reported (initState 64 100) 200 (by decide) (by decide)
    (by decide)

/-- C10: the public transfer operations take `size_t` values, but a
recorded `MemoryRegionDesc` stores offset and aligned size as `uint32_t`,
so the recorded fields equal the requested values exactly when those are
below 2^32, and are reduced mod 2^32 otherwise. -/
theorem region_desc_fields_truncated_mod_u32 : ∀ off sz : Nat,
    (mkMemoryRegionDesc off sz).srcOffset = off % 2 ^ 32 ∧
    (mkMemoryRegionDesc off sz).alignedSize = sz % 2 ^ 32 ∧
    ((mkMemoryRegionDesc off sz).srcOffset = off ↔ off < 2 ^ 32) ∧
    ((mkMemoryRegionDesc off sz).alignedSize = sz ↔ sz < 2 ^ 32) := by
  intro off sz
  exact ⟨rfl, rfl, truncU32_eq_self_iff off, truncU32_eq_self_iff sz⟩

end IglStaging
